import Mathlib

/-!
# heroku-go: the generic CRUD client

A shallow embedding of `api.go` and `types.go`.

Go strings are modelled by `String` (sequences of characters).  The only
string surgery of the package, `dir`, cuts at the one-byte separator `/`,
so cutting at a character index and at a byte index agree.

Go `error` values are modelled by the inductive `Err`, one constructor per
`errors.New` call site of the package, one for errors handed back by a
library collaborator and one for run-time panics.

The collaborators of the package that live outside the repository
(`net/url`, `net/http`, `encoding/json`, `io`) are parameters: `url.Parse`
is an argument of `New`, the others are gathered in `Env`.  Calls on the
transport, on `io.Copy`, on the JSON decoder and on the response body are
recorded, in order, in a trace of `Event`s.

A resource (a `Pather`) is modelled as a non-nil value whose dynamic type
implements neither `io.Reader` nor `io.Writer`, as `*App` does; readers and
writers are constructors of their own in `Data` and `Sink`.
-/

set_option autoImplicit false
set_option linter.dupNamespace false

namespace Heroku

deriving instance DecidableEq for Except

/-! ## Constants and errors -/

def DefaultHost : String := "api.heroku.com"

def userAgent : String := "heroku-go"

/-- Go `error` values (and panics) as they arise in the package. -/
inductive Err where
  /-- an error returned by a library collaborator, passed through unmodified -/
  | lib (msg : String)
  /-- `errors.New("invalid scheme " + u.Scheme)` in `New` -/
  | invalidScheme (scheme : String)
  /-- `errors.New("Bad status: " + resp.Status)` in `Do` -/
  | badStatus (status : String)
  /-- `errors.New("invalid path: " + path)` in `dir` -/
  | invalidPath (path : String)
  /-- a run-time panic with its message -/
  | panic (msg : String)
  deriving DecidableEq, Repr

/-- The message of an error, `err.Error()`. -/
def Err.Error : Err → String
  | .lib msg => msg
  | .invalidScheme scheme => "invalid scheme " ++ scheme
  | .badStatus status => "Bad status: " ++ status
  | .invalidPath path => "invalid path: " ++ path
  | .panic msg => msg

/-! ## `types.go` -/

structure App where
  ID : String
  Name : String
  Maintenance : Bool
  deriving DecidableEq, Repr

def App.Path (a : App) : String :=
  if a.ID = "" then "/apps/" ++ a.Name else "/apps/" ++ a.ID

/-- The interface `Pather`: any type exposing `Path() string`. -/
class Pather (α : Type) where
  Path : α → String

instance : Pather App := ⟨App.Path⟩

/-! ## `dir` -/

/-- The index of the last occurrence of `c` in `s`, as
`strings.LastIndex(s, string(c))`; `none` stands for `-1`. -/
def LastIndex (c : Char) : List Char → Option Nat
  | [] => none
  | x :: xs =>
    match LastIndex c xs with
    | some i => some (i + 1)
    | none => if x = c then some 0 else none

def dir (path : String) : Except Err String :=
  match LastIndex '/' path.data with
  | some i => .ok (String.mk (path.data.take i))
  | none => .error (.invalidPath path)

/-! ## `Client` and `New` -/

/-- The pieces of `*url.Userinfo` that `New` reads. -/
structure Userinfo where
  username : String
  password : String
  passwordSet : Bool
  deriving DecidableEq, Repr

/-- The method `(*Userinfo).Password`. -/
def Userinfo.Password (u : Userinfo) : String × Bool :=
  (u.password, u.passwordSet)

/-- The pieces of `*url.URL` that `New` reads; `User = none` is the nil pointer. -/
structure URL where
  Scheme : String
  User : Option Userinfo
  Host : String
  deriving DecidableEq, Repr

/-- An outbound `*http.Request` as the package builds it. `URL` is the string
handed to `http.NewRequest`; `Body = none` is the nil reader. -/
structure Request where
  Method : String
  URL : String
  Body : Option String
  Header : List (String × String)
  BasicAuth : Option (String × String)
  deriving DecidableEq, Repr

/-- The method `Header.Set`: replaces the values stored under `key`. -/
def Request.SetHeader (req : Request) (key value : String) : Request :=
  { req with Header := (req.Header.filter (fun kv => kv.1 ≠ key)) ++ [(key, value)] }

/-- The method `Header.Get`. -/
def Request.GetHeader (req : Request) (key : String) : Option String :=
  (req.Header.find? (fun kv => kv.1 = key)).map (fun kv => kv.2)

/-- The pieces of `*http.Response` that `Do` reads. -/
structure Response where
  StatusCode : Int
  Status : String
  Body : String
  deriving DecidableEq, Repr

/-- The interface held in the field `Client.Client`. -/
abbrev Doer := Request → Except String Response

structure Client where
  Host : String
  Token : String
  /-- `none` is nil: `http.DefaultClient` is used -/
  Client : Option Doer

/-- `New`, with `url.Parse` as the parameter `Parse`. -/
def New (Parse : String → Except String URL) (url : String) : Except Err Client :=
  if url = "" then
    .ok { Host := DefaultHost, Token := "", Client := none }
  else
    match Parse url with
    | .error err => .error (.lib err)
    | .ok u =>
      if u.Scheme ≠ "https" then
        .error (.invalidScheme u.Scheme)
      else
        .ok { Host := u.Host
              Token := match u.User with
                | some ui => ui.Password.1
                | none => ""
              Client := none }

/-! ## Payloads, sinks and the collaborators -/

/-- An `interface{}` argument as the type switch of `NewRequest` sees it:
nil, an `io.Reader` (with the bytes it yields), or any other value. -/
inductive Data (δ : Type) where
  | nil
  | reader (content : String)
  | value (v : δ)
  deriving DecidableEq, Repr

/-- An `interface{}` argument as the type switch of `Do` sees it:
nil, an `io.Writer` (with the bytes written so far), or any other value. -/
inductive Sink (σ : Type) where
  | nil
  | writer (content : String)
  | value (v : σ)
  deriving DecidableEq, Repr

/-- A variable of type `io.Reader` seen as an `interface{}` value. -/
def Data.ofReader {δ : Type} : Option String → Data δ
  | none => .nil
  | some content => .reader content

/-- The collaborators outside the repository. -/
structure Env (δ σ : Type) where
  /-- `json.Marshal` -/
  Marshal : Data δ → Except String String
  /-- `json.NewDecoder(body).Decode(w)`: the value after decoding and the error -/
  Decode : String → σ → σ × Option String
  /-- `io.Copy(v, body)`: the writer's bytes after copying and the error -/
  Copy : String → String → String × Option String
  /-- the error of `http.NewRequest` for a method and a url, if it rejects them -/
  Reject : String → String → Option String
  /-- `http.DefaultClient` -/
  DefaultClient : Doer

/-- Calls made on collaborators while an operation runs, in order. -/
inductive Event where
  /-- `client.Do(req)` -/
  | send (req : Request)
  /-- `io.Copy(v, resp.Body)` -/
  | copy
  /-- `json.NewDecoder(resp.Body).Decode(w)` -/
  | decode
  /-- `resp.Body.Close()` -/
  | close
  deriving DecidableEq, Repr

/-- What an operation leaves behind: the returned error (`none` is nil),
the sink after the call, and the calls made on collaborators. -/
structure Outcome (σ : Type) where
  err : Option Err
  w : Sink σ
  trace : List Event
  deriving DecidableEq, Repr

/-- The caller's resource after an operation that started with `p`. -/
def Outcome.resource {α : Type} (o : Outcome α) (p : α) : α :=
  match o.w with
  | .value v => v
  | _ => p

/-- The requests handed to the transport, in order. -/
def Outcome.sent {σ : Type} (o : Outcome σ) : List Request :=
  o.trace.filterMap (fun ev => match ev with
    | .send req => some req
    | _ => none)

/-- `http.NewRequest`. -/
def httpNewRequest {δ σ : Type} (env : Env δ σ) (method url : String)
    (body : Option String) : Except Err Request :=
  match env.Reject method url with
  | some err => .error (.lib err)
  | none => .ok { Method := method, URL := url, Body := body, Header := [], BasicAuth := none }

/-! ## `NewRequest`, `Do`, `call` -/

/-- The method `NewRequest`. The variables `ctype` and `body` start at their zero
values; the default case marshals `body`, as the source does. The case
`*bytes.Buffer` of the source's type switch stands after `io.Reader`, which
every `*bytes.Buffer` satisfies, so it is never taken and has no branch here. -/
def NewRequest {δ σ : Type} (env : Env δ σ) (c : Client) (method path : String)
    (data : Data δ) : Except Err Request :=
  let ctype0 : String := ""
  let body0 : Option String := none
  let switch : Except Err (String × Option String) :=
    match data with
    | .nil => .ok (ctype0, body0)
    | .reader v => .ok (ctype0, some v)
    | .value _ =>
      match env.Marshal (Data.ofReader body0) with
      | .error err => .error (.lib err)
      | .ok j => .ok ("application/json", some j)
  match switch with
  | .error err => .error err
  | .ok (ctype, body) =>
    match httpNewRequest env method ("https://" ++ c.Host ++ path) body with
    | .error err => .error err
    | .ok req =>
      let req := { req with BasicAuth := some ("", c.Token) }
      let req := req.SetHeader "Accept" "application/vnd.heroku+json; version=3"
      let req := req.SetHeader "User-Agent" userAgent
      let req := if ctype ≠ "" then req.SetHeader "Content-Type" ctype else req
      .ok req

/-- The transport `Do` uses: the field `Client`, or `http.DefaultClient` if it is nil. -/
def Client.transport {δ σ : Type} (c : Heroku.Client) (env : Env δ σ) : Doer :=
  match c.Client with
  | none => env.DefaultClient
  | some client => client

def Do {δ σ : Type} (env : Env δ σ) (c : Client) (req : Request) (w : Sink σ) : Outcome σ :=
  let client : Doer := c.transport env
  match client req with
  | .error err => ⟨some (.lib err), w, [.send req]⟩
  | .ok resp =>
    if resp.StatusCode.tdiv 100 ≠ 2 then
      ⟨some (.badStatus resp.Status), w, [.send req, .close]⟩
    else
      match w with
      | .nil => ⟨none, .nil, [.send req, .close]⟩
      | .writer v =>
        let r := env.Copy v resp.Body
        ⟨r.2.map .lib, .writer r.1, [.send req, .copy, .close]⟩
      | .value v =>
        let r := env.Decode resp.Body v
        ⟨r.2.map .lib, .value r.1, [.send req, .decode, .close]⟩

def call {δ σ : Type} (env : Env δ σ) (c : Client) (method path : String)
    (r : Data δ) (w : Sink σ) : Outcome σ :=
  match NewRequest env c method path r with
  | .error err => ⟨some err, w, []⟩
  | .ok req => Do env c req w

def join (a : List String) : String :=
  a.foldl (fun path s => path ++ "/" ++ s) ""

/-! ## The dispatcher -/

def Client.Info {α : Type} [Pather α] (env : Env α α) (c : Heroku.Client) (p : α) : Outcome α :=
  call env c "GET" (Pather.Path p) .nil (.value p)

def Client.Create {α : Type} [Pather α] (env : Env α α) (c : Heroku.Client) (p : α) : Outcome α :=
  match dir (Pather.Path p) with
  | .error err => ⟨some err, .value p, []⟩
  | .ok path => call env c "POST" path (.value p) (.value p)

def Client.Update {α : Type} [Pather α] (env : Env α α) (c : Heroku.Client) (p : α) : Outcome α :=
  call env c "PATCH" (Pather.Path p) (.value p) .nil

def Client.Destroy {α : Type} [Pather α] (env : Env α α) (c : Heroku.Client) (p : α) : Outcome α :=
  call env c "DELETE" (Pather.Path p) .nil .nil

/-! ## Run-time types: `listPather`, `mustElem`, `List`

The fragment of `reflect` that `listPather` uses, over the types that can be
written with the declarations of the repository: the struct `App`, the
basic types, pointers and slices.  `*App` is the only one of them whose
method set has `Path`. -/

/-- The kinds of `reflect.Kind` that occur. -/
inductive Kind where
  | Bool | Int | String | Struct | Ptr | Slice
  deriving DecidableEq, Repr

/-- A non-nil `reflect.Type`. -/
inductive GoType where
  | bool | int | string | app
  | ptr (elem : GoType)
  | slice (elem : GoType)
  deriving DecidableEq, Repr

def GoType.Kind : GoType → Kind
  | .bool => .Bool
  | .int => .Int
  | .string => .String
  | .app => .Struct
  | .ptr _ => .Ptr
  | .slice _ => .Slice

/-- The method `Type.Elem`, which panics on a type without elements. -/
def GoType.Elem : GoType → Except Err GoType
  | .ptr elem => .ok elem
  | .slice elem => .ok elem
  | _ => .error (.panic "reflect: Elem of invalid type")

/-- The values of a type; a pointer is nil (`none`) or holds its pointee. -/
def GoType.den : GoType → Type
  | .bool => Bool
  | .int => Int
  | .string => String
  | .app => App
  | .ptr elem => Option elem.den
  | .slice elem => List elem.den

/-- The zero value of a type. -/
def GoType.zero : (t : GoType) → t.den
  | .bool => false
  | .int => (0 : Int)
  | .string => ""
  | .app => ({ ID := "", Name := "", Maintenance := false } : App)
  | .ptr _ => none
  | .slice _ => []

/-- A non-nil `interface{}` value: a dynamic type and a value of it. -/
structure Dyn where
  type : GoType
  val : type.den

/-- `reflect.TypeOf`; `none` is the nil interface, resp. the nil `reflect.Type`. -/
def TypeOf (v : Option Dyn) : Option GoType :=
  v.map (fun d => d.type)

def mustElem (t : Option GoType) (k : Kind) : Except Err (Option GoType) :=
  match t with
  | none => .error (.panic "invalid memory address or nil pointer dereference")
  | some t =>
    if t.Kind ≠ k then
      .error (.panic "bad type")
    else
      match t.Elem with
      | .error err => .error err
      | .ok elem => .ok (some elem)

/-- `reflect.New(t).Interface()`: a pointer to a fresh zero value of `t`. -/
def reflectNew (t : Option GoType) : Except Err Dyn :=
  match t with
  | none => .error (.panic "reflect: New(nil)")
  | some t => .ok ⟨.ptr t, some t.zero⟩

/-- A `Pather` whose dynamic type is `*App`; `none` is the nil pointer. -/
abbrev AppPtr := Option App

/-- `(*App).Path` called through a pointer. -/
def AppPtr.Path : AppPtr → Except Err String
  | none => .error (.panic "invalid memory address or nil pointer dereference")
  | some a => .ok a.Path

/-- The type assertion `v.(Pather)`. -/
def assertPather : Dyn → Except Err AppPtr
  | ⟨.ptr .app, a⟩ => .ok a
  | _ => .error (.panic "interface conversion: missing method Path")

def listPather (v : Option Dyn) : Except Err AppPtr :=
  let t := TypeOf v
  match mustElem t .Ptr with
  | .error err => .error err
  | .ok t =>
    match mustElem t .Slice with
    | .error err => .error err
    | .ok t =>
      match mustElem t .Ptr with
      | .error err => .error err
      | .ok t =>
        match reflectNew t with
        | .error err => .error err
        | .ok x => assertPather x

/-- An `interface{}` value as the type switch of `Do` sees it; none of the
modelled types implements `io.Writer`. -/
def Sink.ofAny : Option Dyn → Sink Dyn
  | none => .nil
  | some d => .value d

def Client.List {δ : Type} (env : Env δ Dyn) (c : Heroku.Client) (p : Option Dyn) :
    Outcome Dyn :=
  match listPather p with
  | .error err => ⟨some err, Sink.ofAny p, []⟩
  | .ok lp =>
    match lp.Path with
    | .error err => ⟨some err, Sink.ofAny p, []⟩
    | .ok ipath =>
      match dir ipath with
      | .error err => ⟨some err, Sink.ofAny p, []⟩
      | .ok path => call env c "GET" path .nil (Sink.ofAny p)

/-- The type `*[]*App`. -/
abbrev AppsHandle : GoType := .ptr (.slice (.ptr .app))

/-! ## A concrete environment

`encoding/json` on the type `App`, and a server that answers every request
with one fixed response; used to evaluate the definitions on inputs. -/

/-- A JSON string literal; only the quote and the backslash are escaped. -/
def jsonQuote (s : String) : String :=
  let q := String.singleton (Char.ofNat 34)
  let b := String.singleton (Char.ofNat 92)
  q ++ String.join (s.data.map (fun ch =>
    if ch = Char.ofNat 34 then b ++ q
    else if ch = Char.ofNat 92 then b ++ b
    else String.singleton ch)) ++ q

/-- `json.Marshal` on nil, on a reader without exported fields, and on an
`App` with its field tags `id,omitempty`, `name,omitempty`, `maintenance`. -/
def jsonMarshalApp : Data App → Except String String
  | .nil => .ok "null"
  | .reader _ => .ok "\x7b\x7d"
  | .value a =>
    let id := if a.ID = "" then [] else [jsonQuote "id" ++ ":" ++ jsonQuote a.ID]
    let name := if a.Name = "" then [] else [jsonQuote "name" ++ ":" ++ jsonQuote a.Name]
    let maintenance := [jsonQuote "maintenance" ++ ":" ++ (if a.Maintenance then "true" else "false")]
    .ok ("\x7b" ++ ",".intercalate (id ++ name ++ maintenance) ++ "\x7d")

/-- An environment whose server answers `resp` to every request. Decoding is
only modelled for the documents `null` and the empty object, which leave the
target as it is; `io.Copy` appends the body. -/
def constEnv {δ : Type} (σ : Type) (marshal : Data δ → Except String String)
    (resp : Response) : Env δ σ where
  Marshal := marshal
  Decode := fun body v =>
    if body = "null" ∨ body = "\x7b\x7d" then (v, none) else (v, some "json: document not modelled")
  Copy := fun v body => (v ++ body, none)
  Reject := fun _ _ => none
  DefaultClient := fun _ => .ok resp

/-- The environment `constEnv` with `json.Marshal` on `App`. -/
def fixedEnv (σ : Type) (resp : Response) : Env App σ :=
  constEnv σ jsonMarshalApp resp

/-- A resource type as a caller may declare it, whose path is its bare name. -/
structure Bare where
  name : String
  deriving DecidableEq, Repr

instance : Pather Bare := ⟨fun b => b.name⟩

/-- The part of a list before the first `c` and the part after it. -/
def cut (c : Char) : List Char → Option (List Char × List Char)
  | [] => none
  | x :: xs =>
    if x = c then some ([], xs)
    else
      match cut c xs with
      | some (before, after) => some (x :: before, after)
      | none => none

/-- The function `url.Parse` on urls of the shape `scheme://[user[:password]@]host`,
without path, query or fragment. -/
def parseURL (url : String) : Except String URL :=
  match cut ':' url.data with
  | none => .error "missing protocol scheme"
  | some (scheme, rest) =>
    match rest with
    | '/' :: '/' :: authority =>
      match cut '@' authority with
      | none => .ok { Scheme := String.mk scheme, User := none, Host := String.mk authority }
      | some (userinfo, host) =>
        match cut ':' userinfo with
        | none =>
          .ok { Scheme := String.mk scheme
                User := some ⟨String.mk userinfo, "", false⟩
                Host := String.mk host }
        | some (username, password) =>
          .ok { Scheme := String.mk scheme
                User := some ⟨String.mk username, String.mk password, true⟩
                Host := String.mk host }
    | _ => .error "url shape not modelled"

/-- The client of `example_test.go`. -/
def exampleClient : Client := { Host := DefaultHost, Token := "", Client := none }

/-! ## Lemmas on `dir` -/

theorem LastIndex_eq_none_iff (c : Char) (l : List Char) :
    LastIndex c l = none ↔ c ∉ l := by
  induction l with
  | nil => simp [LastIndex]
  | cons x xs ih =>
    unfold LastIndex
    cases h : LastIndex c xs with
    | none =>
      have hx : c ∉ xs := ih.mp h
      by_cases hxc : x = c
      · simp [hxc]
      · have hcx : ¬ c = x := fun e => hxc e.symm
        simp [hxc, hcx, hx]
    | some i =>
      have hx : c ∈ xs := by
        by_contra hn
        rw [ih.mpr hn] at h
        cases h
      simp [hx]

theorem LastIndex_some_split (c : Char) (l : List Char) (i : Nat)
    (h : LastIndex c l = some i) :
    l = l.take i ++ c :: l.drop (i + 1) ∧ c ∉ l.drop (i + 1) := by
  induction l generalizing i with
  | nil => simp [LastIndex] at h
  | cons x xs ih =>
    unfold LastIndex at h
    cases hxs : LastIndex c xs with
    | none =>
      rw [hxs] at h
      by_cases hxc : x = c
      · simp [hxc] at h
        subst h
        subst hxc
        have hx : x ∉ xs := (LastIndex_eq_none_iff x xs).mp hxs
        simpa using hx
      · simp [hxc] at h
    | some j =>
      rw [hxs] at h
      simp at h
      subst h
      obtain ⟨h1, h2⟩ := ih j hxs
      constructor
      · simp only [List.take_succ_cons, List.drop_succ_cons, List.cons_append]
        rw [← h1]
      · simpa using h2

theorem LastIndex_append_cons (c : Char) (l r : List Char) (h : c ∉ r) :
    LastIndex c (l ++ c :: r) = some l.length := by
  induction l with
  | nil =>
    have hr : LastIndex c r = none := (LastIndex_eq_none_iff c r).mpr h
    simp [LastIndex, hr]
  | cons x xs ih => simp [LastIndex, ih]

/-- The function `dir` cuts a path of the shape `d/s`, `s` free of `/`, down to `d`. -/
theorem dir_append_slash (d s : String) (h : '/' ∉ s.data) :
    dir (d ++ "/" ++ s) = .ok d := by
  have hd : (d ++ "/" ++ s).data = d.data ++ '/' :: s.data := by
    simp [String.data_append]
  unfold dir
  rw [hd, LastIndex_append_cons '/' d.data s.data h]
  simp

/-- The function `dir` fails exactly on the paths without `/`. -/
theorem dir_error_iff (path : String) :
    dir path = .error (.invalidPath path) ↔ '/' ∉ path.data := by
  unfold dir
  cases h : LastIndex '/' path.data with
  | none => simpa using (LastIndex_eq_none_iff '/' path.data).mp h
  | some i =>
    have hm : '/' ∈ path.data := by
      by_contra hn
      rw [(LastIndex_eq_none_iff '/' path.data).mpr hn] at h
      cases h
    simp [hm]

/-- On a path with a `/`, `dir` returns what stands before the last `/`. -/
theorem dir_ok_split (path : String) (h : '/' ∈ path.data) :
    ∃ d s : String, dir path = .ok d ∧ path = d ++ "/" ++ s ∧ '/' ∉ s.data := by
  cases hi : LastIndex '/' path.data with
  | none => exact absurd h ((LastIndex_eq_none_iff '/' path.data).mp hi)
  | some i =>
    obtain ⟨h1, h2⟩ := LastIndex_some_split '/' path.data i hi
    refine ⟨String.mk (path.data.take i), String.mk (path.data.drop (i + 1)), ?_, ?_, h2⟩
    · simp [dir, hi]
    · apply String.ext
      simp only [String.data_append]
      rw [List.append_assoc]
      exact h1

theorem dir_error_kind (path : String) (err : Err) (h : dir path = .error err) :
    err = .invalidPath path ∧ '/' ∉ path.data := by
  unfold dir at h
  cases hi : LastIndex '/' path.data with
  | none =>
    rw [hi] at h
    simp at h
    exact ⟨h.symm, (LastIndex_eq_none_iff '/' path.data).mp hi⟩
  | some i =>
    rw [hi] at h
    simp at h

/-! ## Lemmas on `NewRequest`, `Do`, `call` -/

theorem SetHeader_method_url (req : Request) (k v : String) :
    (req.SetHeader k v).Method = req.Method ∧ (req.SetHeader k v).URL = req.URL
      ∧ (req.SetHeader k v).Body = req.Body := by
  simp [Request.SetHeader]

/-- A request that `NewRequest` builds carries the method given and the url
`https://<host><path>`. -/
theorem NewRequest_method_url {δ σ : Type} (env : Env δ σ) (c : Client)
    (method path : String) (data : Data δ) (req : Request)
    (h : NewRequest env c method path data = .ok req) :
    req.Method = method ∧ req.URL = "https://" ++ c.Host ++ path := by
  unfold NewRequest httpNewRequest at h
  cases data with
  | nil =>
    cases hr : env.Reject method ("https://" ++ c.Host ++ path) with
    | some e => simp [hr] at h
    | none =>
      simp [hr] at h
      subst h
      simp [Request.SetHeader]
  | reader v =>
    cases hr : env.Reject method ("https://" ++ c.Host ++ path) with
    | some e => simp [hr] at h
    | none =>
      simp [hr] at h
      subst h
      simp [Request.SetHeader]
  | value v =>
    cases hm : env.Marshal (Data.ofReader none) with
    | error e => simp [hm] at h
    | ok j =>
      cases hr : env.Reject method ("https://" ++ c.Host ++ path) with
      | some e => simp [hm, hr] at h
      | none =>
        simp [hm, hr] at h
        subst h
        simp [Request.SetHeader]

/-- An error of `NewRequest` is one handed back by a library. -/
theorem NewRequest_error_lib {δ σ : Type} (env : Env δ σ) (c : Client)
    (method path : String) (data : Data δ) (err : Err)
    (h : NewRequest env c method path data = .error err) :
    ∃ msg, err = .lib msg := by
  unfold NewRequest httpNewRequest at h
  cases data with
  | nil =>
    cases hr : env.Reject method ("https://" ++ c.Host ++ path) with
    | some e => simp [hr] at h; exact ⟨e, h.symm⟩
    | none => simp [hr] at h
  | reader v =>
    cases hr : env.Reject method ("https://" ++ c.Host ++ path) with
    | some e => simp [hr] at h; exact ⟨e, h.symm⟩
    | none => simp [hr] at h
  | value v =>
    cases hm : env.Marshal (Data.ofReader none) with
    | error e => simp [hm] at h; exact ⟨e, h.symm⟩
    | ok j =>
      cases hr : env.Reject method ("https://" ++ c.Host ++ path) with
      | some e => simp [hm, hr] at h; exact ⟨e, h.symm⟩
      | none => simp [hm, hr] at h

/-- Without a payload, `NewRequest` succeeds as soon as `http.NewRequest`
accepts the method and the url, and the request has no body. -/
theorem NewRequest_nil_ok {δ σ : Type} (env : Env δ σ) (c : Client)
    (method path : String)
    (hr : env.Reject method ("https://" ++ c.Host ++ path) = none) :
    ∃ req, NewRequest env c method path .nil = .ok req ∧ req.Body = none
      ∧ req.GetHeader "Content-Type" = none := by
  unfold NewRequest httpNewRequest
  simp [hr, Request.SetHeader, Request.GetHeader]
  rintro a b (⟨rfl, -⟩ | ⟨rfl, -⟩) <;> decide

/-- With a structured payload, `NewRequest` succeeds as soon as `json.Marshal`
and `http.NewRequest` do. -/
theorem NewRequest_value_ok {δ σ : Type} (env : Env δ σ) (c : Client)
    (method path : String) (v : δ) (j : String)
    (hm : env.Marshal .nil = .ok j)
    (hr : env.Reject method ("https://" ++ c.Host ++ path) = none) :
    ∃ req, NewRequest env c method path (.value v) = .ok req ∧ req.Body = some j
      ∧ req.GetHeader "Content-Type" = some "application/json" := by
  unfold NewRequest httpNewRequest
  simp [hm, hr, Data.ofReader, Request.SetHeader, Request.GetHeader]

/-- The function `Do` hands exactly the request it is given to the transport. -/
theorem Do_sent {δ σ : Type} (env : Env δ σ) (c : Client) (req : Request) (w : Sink σ) :
    (Do env c req w).sent = [req] := by
  cases ht : c.transport env req with
  | error e => simp [Do, ht, Outcome.sent]
  | ok resp =>
    by_cases hs : resp.StatusCode.tdiv 100 = 2
    · cases w <;> simp [Do, ht, hs, Outcome.sent]
    · simp [Do, ht, hs, Outcome.sent]

/-- The error of `Do` is nil, a library error or a bad status. -/
theorem Do_err_ne_invalidPath {δ σ : Type} (env : Env δ σ) (c : Client) (req : Request)
    (w : Sink σ) (path : String) :
    (Do env c req w).err ≠ some (.invalidPath path) := by
  cases ht : c.transport env req with
  | error e => simp [Do, ht]
  | ok resp =>
    by_cases hs : resp.StatusCode.tdiv 100 = 2
    · cases w with
      | nil => simp [Do, ht, hs]
      | writer v =>
        cases hc : (env.Copy v resp.Body).2 <;> simp [Do, ht, hs, hc]
      | value v =>
        cases hc : (env.Decode resp.Body v).2 <;> simp [Do, ht, hs, hc]
    · simp [Do, ht, hs]

/-- With a nil sink, `Do` neither copies nor decodes and the sink stays nil. -/
theorem Do_nil_sink {δ σ : Type} (env : Env δ σ) (c : Client) (req : Request) :
    (Do env c req (.nil : Sink σ)).w = .nil ∧ Event.copy ∉ (Do env c req (.nil : Sink σ)).trace
      ∧ Event.decode ∉ (Do env c req (.nil : Sink σ)).trace := by
  cases ht : c.transport env req with
  | error e => simp [Do, ht]
  | ok resp =>
    by_cases hs : resp.StatusCode.tdiv 100 = 2
    · simp [Do, ht, hs]
    · simp [Do, ht, hs]

/-- The requests `call` sends: the one `NewRequest` builds, if it builds one. -/
theorem call_sent {δ σ : Type} (env : Env δ σ) (c : Client) (method path : String)
    (r : Data δ) (w : Sink σ) :
    (call env c method path r w).sent =
      match NewRequest env c method path r with
      | .ok req => [req]
      | .error _ => [] := by
  unfold call
  cases h : NewRequest env c method path r with
  | error e => simp [Outcome.sent]
  | ok req => simpa using Do_sent env c req w

/-- Every request `call` sends carries its method and the url of its path. -/
theorem call_sent_method_url {δ σ : Type} (env : Env δ σ) (c : Client)
    (method path : String) (r : Data δ) (w : Sink σ) (req : Request)
    (h : req ∈ (call env c method path r w).sent) :
    req.Method = method ∧ req.URL = "https://" ++ c.Host ++ path := by
  rw [call_sent] at h
  cases hn : NewRequest env c method path r with
  | error e => simp [hn] at h
  | ok req0 =>
    simp [hn] at h
    subst h
    exact NewRequest_method_url env c method path r req hn

theorem call_err_ne_invalidPath {δ σ : Type} (env : Env δ σ) (c : Client)
    (method path : String) (r : Data δ) (w : Sink σ) (p : String) :
    (call env c method path r w).err ≠ some (.invalidPath p) := by
  unfold call
  cases hn : NewRequest env c method path r with
  | error e =>
    obtain ⟨msg, hmsg⟩ := NewRequest_error_lib env c method path r e hn
    simp [hmsg]
  | ok req => exact Do_err_ne_invalidPath env c req w p

/-- With a nil sink, `call` neither copies nor decodes and the sink stays nil. -/
theorem call_nil_sink {δ σ : Type} (env : Env δ σ) (c : Client) (method path : String)
    (r : Data δ) :
    (call env c method path r (.nil : Sink σ)).w = .nil
      ∧ Event.copy ∉ (call env c method path r (.nil : Sink σ)).trace
      ∧ Event.decode ∉ (call env c method path r (.nil : Sink σ)).trace := by
  unfold call
  cases hn : NewRequest env c method path r with
  | error e => simp
  | ok req => exact Do_nil_sink env c req

/-- When `NewRequest` builds `req`, `call` sends exactly `req`. -/
theorem call_sent_of_ok {δ σ : Type} (env : Env δ σ) (c : Client) (method path : String)
    (r : Data δ) (w : Sink σ) (req : Request)
    (h : NewRequest env c method path r = .ok req) :
    (call env c method path r w).sent = [req] := by
  rw [call_sent, h]

/-- Without a payload and with `http.NewRequest` accepting, `call` sends one
request, with the method, the url of the path and no body. -/
theorem call_nil_sends {δ σ : Type} (env : Env δ σ) (c : Client) (method path : String)
    (w : Sink σ) (hr : env.Reject method ("https://" ++ c.Host ++ path) = none) :
    ∃ req, (call env c method path .nil w).sent = [req] ∧ req.Method = method
      ∧ req.URL = "https://" ++ c.Host ++ path ∧ req.Body = none
      ∧ req.GetHeader "Content-Type" = none := by
  obtain ⟨req, h1, h2, h3⟩ := NewRequest_nil_ok env c method path hr
  obtain ⟨h4, h5⟩ := NewRequest_method_url env c method path .nil req h1
  exact ⟨req, call_sent_of_ok env c method path .nil w req h1, h4, h5, h2, h3⟩

/-- With a structured payload and `json.Marshal`, `http.NewRequest` succeeding,
`call` sends one request, with the method and the url of the path. -/
theorem call_value_sends {δ σ : Type} (env : Env δ σ) (c : Client) (method path : String)
    (v : δ) (w : Sink σ) (j : String) (hm : env.Marshal .nil = .ok j)
    (hr : env.Reject method ("https://" ++ c.Host ++ path) = none) :
    ∃ req, (call env c method path (.value v) w).sent = [req] ∧ req.Method = method
      ∧ req.URL = "https://" ++ c.Host ++ path := by
  obtain ⟨req, h1, -, -⟩ := NewRequest_value_ok env c method path v j hm hr
  obtain ⟨h4, h5⟩ := NewRequest_method_url env c method path (.value v) req h1
  exact ⟨req, call_sent_of_ok env c method path (.value v) w req h1, h4, h5⟩

/-- With a structured payload and `json.Marshal`, `http.NewRequest` succeeding,
the one request `call` sends has as body what `json.Marshal` made of the nil
`body` variable, and the JSON content type. -/
theorem call_value_sends_body {δ σ : Type} (env : Env δ σ) (c : Client) (method path : String)
    (v : δ) (w : Sink σ) (j : String) (hm : env.Marshal .nil = .ok j)
    (hr : env.Reject method ("https://" ++ c.Host ++ path) = none) :
    ∃ req, (call env c method path (.value v) w).sent = [req] ∧ req.Method = method
      ∧ req.URL = "https://" ++ c.Host ++ path ∧ req.Body = some j
      ∧ req.GetHeader "Content-Type" = some "application/json" := by
  obtain ⟨req, h1, h2, h3⟩ := NewRequest_value_ok env c method path v j hm hr
  obtain ⟨h4, h5⟩ := NewRequest_method_url env c method path (.value v) req h1
  exact ⟨req, call_sent_of_ok env c method path (.value v) w req h1, h4, h5, h2, h3⟩

theorem tdiv_hundred_eq_two_iff (x : Int) :
    x.tdiv 100 = 2 ↔ 200 ≤ x ∧ x ≤ 299 := by
  rcases Int.le_total 0 x with h | h
  · rw [Int.tdiv_eq_ediv h (by decide)]
    omega
  · constructor
    · intro h2
      have hle : x.tdiv 100 ≤ 0 := by
        obtain ⟨n, rfl⟩ := Int.exists_eq_neg_ofNat h
        rw [Int.neg_tdiv]
        have := Int.tdiv_nonneg (Int.ofNat_nonneg n) (by decide : (0 : Int) ≤ 100)
        omega
      omega
    · intro h2
      omega

/-- Without a payload, a request that `NewRequest` builds has no body. -/
theorem NewRequest_nil_body {δ σ : Type} (env : Env δ σ) (c : Client)
    (method path : String) (req : Request)
    (h : NewRequest env c method path .nil = .ok req) :
    req.Body = none ∧ req.GetHeader "Content-Type" = none := by
  cases hr : env.Reject method ("https://" ++ c.Host ++ path) with
  | some e => simp [NewRequest, httpNewRequest, hr] at h
  | none =>
    obtain ⟨req0, h1, h2, h3⟩ := NewRequest_nil_ok env c method path hr
    rw [h] at h1
    cases h1
    exact ⟨h2, h3⟩

theorem listPather_apps (v : AppsHandle.den) :
    listPather (some ⟨AppsHandle, v⟩) = .ok (some (GoType.zero .app)) := by
  simp [listPather, TypeOf, mustElem, GoType.Kind, GoType.Elem, reflectNew, assertPather]

theorem List_apps {δ : Type} (env : Env δ Dyn) (c : Client) (v : AppsHandle.den) :
    Client.List env c (some ⟨AppsHandle, v⟩)
      = call env c "GET" "/apps" .nil (.value ⟨AppsHandle, v⟩) := by
  have hd : dir "/apps/" = .ok "/apps" := by decide
  have hp : App.Path (GoType.zero .app) = "/apps/" := by decide
  simp [Client.List, listPather_apps, AppPtr.Path, hp, hd, Sink.ofAny]

/-! ## The claims -/

/-- C1, as stated, fails: for the collection `apps` and the identifier `x` the
path that `dir` derives from `/apps/x` is not `/apps/`, and `Create` on an
`App` with empty ID and Name `x` sends its POST to `https://api.heroku.com/apps`. -/
theorem create_collection_path_trailing_slash_fails :
    dir ("/" ++ "apps" ++ "/" ++ "x") ≠ .ok ("/" ++ "apps" ++ "/")
      ∧ (Client.Create (fixedEnv App ⟨201, "201 Created", "null"⟩) exampleClient
          ⟨"", "x", false⟩).sent.map (fun req => (req.Method, req.URL))
        = [("POST", "https://api.heroku.com/apps")] := by
  decide

/-- C1, amended: for every collection name `c` and identifier `id` without `/`,
the collection path that `dir` derives from `"/" + c + "/" + id` is `"/" + c`,
without a trailing slash; `Create` on an `App` with empty ID and Name `x` sends
only POST requests to `https://<host>/apps`, and sends exactly one when
`json.Marshal` and `http.NewRequest` succeed. -/
theorem create_collection_path (c id : String) (hc : '/' ∉ c.data) (hid : '/' ∉ id.data)
    (env : Env App App) (cl : Client) (m : Bool) :
    dir ("/" ++ c ++ "/" ++ id) = .ok ("/" ++ c)
      ∧ (∀ req ∈ (Client.Create env cl ⟨"", "x", m⟩).sent,
          req.Method = "POST" ∧ req.URL = "https://" ++ cl.Host ++ "/apps")
      ∧ (∀ j, env.Marshal .nil = .ok j →
          env.Reject "POST" ("https://" ++ cl.Host ++ "/apps") = none →
          ∃ req, (Client.Create env cl ⟨"", "x", m⟩).sent = [req] ∧ req.Method = "POST"
            ∧ req.URL = "https://" ++ cl.Host ++ "/apps") := by
  have _ := hc
  have hd : dir (Pather.Path (⟨"", "x", m⟩ : App)) = .ok "/apps" := by
    cases m <;> decide
  refine ⟨dir_append_slash ("/" ++ c) id hid, ?_, ?_⟩
  · intro req hreq
    simp only [Client.Create, hd] at hreq
    exact call_sent_method_url env cl "POST" "/apps" _ _ req hreq
  · intro j hm hr
    simp only [Client.Create, hd]
    exact call_value_sends env cl "POST" "/apps" _ _ j hm hr

theorem create_collection_path_witness :
    dir ("/" ++ "apps" ++ "/" ++ "x") = .ok ("/" ++ "apps")
      ∧ ∃ req, (Client.Create (fixedEnv App ⟨201, "201 Created", "null"⟩) exampleClient
            ⟨"", "x", false⟩).sent = [req] ∧ req.Method = "POST"
            ∧ req.URL = "https://" ++ exampleClient.Host ++ "/apps" :=
  ⟨(create_collection_path "apps" "x" (by decide) (by decide)
      (fixedEnv App ⟨201, "201 Created", "null"⟩) exampleClient false).1,
   (create_collection_path "apps" "x" (by decide) (by decide)
      (fixedEnv App ⟨201, "201 Created", "null"⟩) exampleClient false).2.2 "null" rfl rfl⟩

/-- C2: for every pointer to a slice of `*App`, nil or not, empty or populated,
whatever the elements, `listPather` returns a pointer to a zero-valued `App`,
and the `Path()` of that value is `/apps/`. -/
theorem listPather_apps_zero (v : AppsHandle.den) :
    listPather (some ⟨AppsHandle, v⟩) = .ok (some ⟨"", "", false⟩)
      ∧ (listPather (some ⟨AppsHandle, v⟩)).bind AppPtr.Path = .ok "/apps/" := by
  have h := listPather_apps v
  refine ⟨h, ?_⟩
  rw [h]
  decide

/-- C3, as stated, fails: `List` on a pointer to an empty slice of `*App` sends
its GET to `https://api.heroku.com/apps`, not to the path `/apps/`. -/
theorem list_empty_trailing_slash_fails :
    (Client.List (fixedEnv Dyn ⟨200, "200 OK", "null"⟩) exampleClient
        (some ⟨AppsHandle, some []⟩)).sent.map (fun req => (req.Method, req.URL))
      = [("GET", "https://api.heroku.com/apps")]
    ∧ (Client.List (fixedEnv Dyn ⟨200, "200 OK", "null"⟩) exampleClient
        (some ⟨AppsHandle, some []⟩)).sent.map (fun req => req.URL)
      ≠ ["https://" ++ exampleClient.Host ++ "/apps/"] := by
  decide

/-- C3, amended: `List` called with a pointer to a slice of `*App`, empty or
not, behaves as `call` with GET on the list path `/apps` (no trailing slash),
no payload and the handle as sink; every request it sends is a GET to
`https://<host>/apps`, and it sends exactly one, without body, when
`http.NewRequest` accepts. No element of the slice is consulted. -/
theorem list_apps_path {δ : Type} (env : Env δ Dyn) (c : Client) (v : AppsHandle.den) :
    Client.List env c (some ⟨AppsHandle, v⟩)
        = call env c "GET" "/apps" .nil (.value ⟨AppsHandle, v⟩)
      ∧ (∀ req ∈ (Client.List env c (some ⟨AppsHandle, v⟩)).sent,
          req.Method = "GET" ∧ req.URL = "https://" ++ c.Host ++ "/apps")
      ∧ (env.Reject "GET" ("https://" ++ c.Host ++ "/apps") = none →
          ∃ req, (Client.List env c (some ⟨AppsHandle, v⟩)).sent = [req]
            ∧ req.Method = "GET" ∧ req.URL = "https://" ++ c.Host ++ "/apps"
            ∧ req.Body = none) := by
  refine ⟨List_apps env c v, ?_, ?_⟩
  · intro req hreq
    rw [List_apps] at hreq
    exact call_sent_method_url env c "GET" "/apps" _ _ req hreq
  · intro hr
    rw [List_apps]
    obtain ⟨req, h1, h2, h3, h4, -⟩ := call_nil_sends env c "GET" "/apps"
      (.value ⟨AppsHandle, v⟩) hr
    exact ⟨req, h1, h2, h3, h4⟩

theorem list_apps_path_witness :
    ∃ req, (Client.List (fixedEnv Dyn ⟨200, "200 OK", "null"⟩) exampleClient
        (some ⟨AppsHandle, some []⟩)).sent = [req]
      ∧ req.Method = "GET" ∧ req.URL = "https://" ++ exampleClient.Host ++ "/apps"
      ∧ req.Body = none :=
  (list_apps_path (fixedEnv Dyn ⟨200, "200 OK", "null"⟩) exampleClient (some [])).2.2 rfl

theorem append_left_cancel_string (a b c : String) (h : a ++ b = a ++ c) : b = c := by
  have hd : (a ++ b).data = (a ++ c).data := by rw [h]
  simp only [String.data_append] at hd
  exact String.ext (List.append_cancel_left hd)

/-- C4: for every `App` with non-empty ID, `Path()` is `"/apps/" + ID` whatever
the Name; with empty ID it is `"/apps/" + Name`, and it equals `"/apps/" + Name`
only if the ID is empty (or spells the same as the Name). Every request `Info`
sends is a GET to `https://<host>` followed by exactly `Path()`, and it sends
exactly one, without body, when `http.NewRequest` accepts. -/
theorem app_path_id_priority (env : Env App App) (c : Client) (a : App) :
    (a.ID ≠ "" → a.Path = "/apps/" ++ a.ID)
      ∧ (a.ID = "" → a.Path = "/apps/" ++ a.Name)
      ∧ (a.Path = "/apps/" ++ a.Name → a.ID = "" ∨ a.ID = a.Name)
      ∧ (∀ req ∈ (Client.Info env c a).sent,
          req.Method = "GET" ∧ req.URL = "https://" ++ c.Host ++ a.Path)
      ∧ (env.Reject "GET" ("https://" ++ c.Host ++ a.Path) = none →
          ∃ req, (Client.Info env c a).sent = [req] ∧ req.Method = "GET"
            ∧ req.URL = "https://" ++ c.Host ++ a.Path ∧ req.Body = none) := by
  refine ⟨?_, ?_, ?_, ?_, ?_⟩
  · intro h
    simp [App.Path, h]
  · intro h
    simp [App.Path, h]
  · intro h
    by_cases hid : a.ID = ""
    · exact Or.inl hid
    · right
      simp only [App.Path, hid, if_false] at h
      exact append_left_cancel_string _ _ _ h
  · intro req hreq
    exact call_sent_method_url env c "GET" a.Path _ _ req hreq
  · intro hr
    obtain ⟨req, h1, h2, h3, h4, -⟩ := call_nil_sends env c "GET" a.Path (.value a) hr
    exact ⟨req, h1, h2, h3, h4⟩

theorem app_path_id_priority_witness :
    App.Path ⟨"01234567", "myapp", false⟩ = "/apps/" ++ "01234567"
      ∧ ∃ req, (Client.Info (fixedEnv App ⟨200, "200 OK", "null"⟩) exampleClient
          ⟨"01234567", "myapp", false⟩).sent = [req] ∧ req.Method = "GET"
        ∧ req.URL = "https://" ++ exampleClient.Host ++ App.Path ⟨"01234567", "myapp", false⟩
        ∧ req.Body = none :=
  ⟨(app_path_id_priority (fixedEnv App ⟨200, "200 OK", "null"⟩) exampleClient
      ⟨"01234567", "myapp", false⟩).1 (by decide),
   (app_path_id_priority (fixedEnv App ⟨200, "200 OK", "null"⟩) exampleClient
      ⟨"01234567", "myapp", false⟩).2.2.2.2 rfl⟩

/-- C5: for every response `resp` the transport returns, `Do` returns a
`Bad status` error if and only if the status code lies outside [200,299],
which is what the code's test `StatusCode/100 != 2` says; the error then
carries the status line, the sink is left as it was and neither `io.Copy`
nor the JSON decoder is called. -/
theorem Do_bad_status_iff {δ σ : Type} (env : Env δ σ) (c : Client) (req : Request)
    (w : Sink σ) (resp : Response) (ht : c.transport env req = .ok resp) :
    ((∃ status, (Do env c req w).err = some (.badStatus status))
        ↔ ¬ (200 ≤ resp.StatusCode ∧ resp.StatusCode ≤ 299))
      ∧ (resp.StatusCode.tdiv 100 ≠ 2 ↔ ¬ (200 ≤ resp.StatusCode ∧ resp.StatusCode ≤ 299))
      ∧ (¬ (200 ≤ resp.StatusCode ∧ resp.StatusCode ≤ 299) →
          (Do env c req w).err = some (.badStatus resp.Status)
            ∧ (Err.badStatus resp.Status).Error = "Bad status: " ++ resp.Status
            ∧ (Do env c req w).w = w
            ∧ Event.copy ∉ (Do env c req w).trace
            ∧ Event.decode ∉ (Do env c req w).trace) := by
  have hiff := tdiv_hundred_eq_two_iff resp.StatusCode
  refine ⟨?_, not_congr hiff, ?_⟩
  · by_cases hs : resp.StatusCode.tdiv 100 = 2
    · have hin := hiff.mp hs
      constructor
      · rintro ⟨status, hst⟩
        exfalso
        cases w with
        | nil => simp [Do, ht, hs] at hst
        | writer v =>
          cases hc : (env.Copy v resp.Body).2 <;> simp [Do, ht, hs, hc] at hst
        | value v =>
          cases hc : (env.Decode resp.Body v).2 <;> simp [Do, ht, hs, hc] at hst
      · intro hout
        exact absurd hin hout
    · constructor
      · intro _ hin
        exact hs (hiff.mpr hin)
      · intro _
        exact ⟨resp.Status, by simp [Do, ht, hs]⟩
  · intro hout
    have hs : ¬ resp.StatusCode.tdiv 100 = 2 := fun h => hout (hiff.mp h)
    simp [Do, ht, hs, Err.Error]

theorem Do_bad_status_iff_witness :
    (Do (fixedEnv App ⟨404, "404 Not Found", "null"⟩) exampleClient
        ⟨"GET", "https://api.heroku.com/apps/x", none, [], none⟩
        (.value (⟨"", "x", false⟩ : App))).err = some (.badStatus "404 Not Found")
      ∧ (Do (fixedEnv App ⟨404, "404 Not Found", "null"⟩) exampleClient
        ⟨"GET", "https://api.heroku.com/apps/x", none, [], none⟩
        (.value (⟨"", "x", false⟩ : App))).w = .value ⟨"", "x", false⟩ :=
  have h := (Do_bad_status_iff (fixedEnv App ⟨404, "404 Not Found", "null"⟩) exampleClient
    ⟨"GET", "https://api.heroku.com/apps/x", none, [], none⟩
    (.value (⟨"", "x", false⟩ : App)) ⟨404, "404 Not Found", "null"⟩ rfl).2.2 (by decide)
  ⟨h.1, h.2.2.1⟩

/-- C6, the code at a failing input: whatever structured payload is supplied,
`NewRequest` marshals its own still-nil `body` variable, so the requests built
for any two payloads are the same; for the `App` named `x` the body is the
document `null` (with Content-Type `application/json`), whereas the JSON
serialization of that `App` is the object with its name and maintenance flag. -/
theorem NewRequest_marshals_nil_body :
    (∀ (δ σ : Type) (env : Env δ σ) (c : Client) (method path : String) (v v' : δ),
        NewRequest env c method path (.value v) = NewRequest env c method path (.value v'))
      ∧ (NewRequest (fixedEnv App ⟨201, "201 Created", "null"⟩) exampleClient "POST" "/apps"
          (.value ⟨"", "x", false⟩)).map (fun req => (req.Body, req.GetHeader "Content-Type"))
        = .ok (some "null", some "application/json")
      ∧ jsonMarshalApp (.value ⟨"", "x", false⟩)
        = .ok "\x7b\"name\":\"x\",\"maintenance\":false\x7d" := by
  refine ⟨?_, ?_, ?_⟩
  · intro δ σ env c method path v v'
    rfl
  · decide
  · decide

/-- The dispatch of `Update` and `Destroy`, for every resource `p`: every
request `Update` sends is a PATCH and every request `Destroy` sends a DELETE
to `https://<host>` followed by `p.Path()` unmodified, and exactly one is sent
when the libraries accept. The request of `Destroy` has no body; the body of
the request of `Update` is what `json.Marshal` makes of the nil `body`
variable of `NewRequest`. Both use a nil sink: nothing is copied or decoded
and the resource is what it was. -/
theorem update_destroy_requests {α : Type} [Pather α] (env : Env α α) (c : Client) (p : α) :
    (∀ req ∈ (Client.Update env c p).sent,
        req.Method = "PATCH" ∧ req.URL = "https://" ++ c.Host ++ Pather.Path p)
      ∧ (∀ j, env.Marshal .nil = .ok j →
          env.Reject "PATCH" ("https://" ++ c.Host ++ Pather.Path p) = none →
          ∃ req, (Client.Update env c p).sent = [req] ∧ req.Method = "PATCH"
            ∧ req.URL = "https://" ++ c.Host ++ Pather.Path p ∧ req.Body = some j
            ∧ req.GetHeader "Content-Type" = some "application/json")
      ∧ ((Client.Update env c p).w = .nil ∧ (Client.Update env c p).resource p = p
          ∧ Event.copy ∉ (Client.Update env c p).trace
          ∧ Event.decode ∉ (Client.Update env c p).trace)
      ∧ (∀ req ∈ (Client.Destroy env c p).sent,
          req.Method = "DELETE" ∧ req.URL = "https://" ++ c.Host ++ Pather.Path p
            ∧ req.Body = none ∧ req.GetHeader "Content-Type" = none)
      ∧ (env.Reject "DELETE" ("https://" ++ c.Host ++ Pather.Path p) = none →
          ∃ req, (Client.Destroy env c p).sent = [req] ∧ req.Method = "DELETE"
            ∧ req.URL = "https://" ++ c.Host ++ Pather.Path p ∧ req.Body = none)
      ∧ ((Client.Destroy env c p).w = .nil ∧ (Client.Destroy env c p).resource p = p
          ∧ Event.copy ∉ (Client.Destroy env c p).trace
          ∧ Event.decode ∉ (Client.Destroy env c p).trace) := by
  refine ⟨?_, ?_, ?_, ?_, ?_, ?_⟩
  · intro req hreq
    exact call_sent_method_url env c "PATCH" (Pather.Path p) _ _ req hreq
  · intro j hm hr
    exact call_value_sends_body env c "PATCH" (Pather.Path p) p .nil j hm hr
  · obtain ⟨h1, h2, h3⟩ := call_nil_sink (σ := α) env c "PATCH" (Pather.Path p) (.value p)
    refine ⟨h1, ?_, h2, h3⟩
    simp only [Outcome.resource, Client.Update, h1]
  · intro req hreq
    obtain ⟨h1, h2⟩ := call_sent_method_url env c "DELETE" (Pather.Path p) _ _ req hreq
    simp only [Client.Destroy, call_sent] at hreq
    cases hn : NewRequest env c "DELETE" (Pather.Path p) (.nil : Data α) with
    | error e => simp [hn] at hreq
    | ok req0 =>
      simp [hn] at hreq
      subst hreq
      obtain ⟨h3, h4⟩ := NewRequest_nil_body env c "DELETE" (Pather.Path p) req hn
      exact ⟨h1, h2, h3, h4⟩
  · intro hr
    obtain ⟨req, h1, h2, h3, h4, -⟩ := call_nil_sends env c "DELETE" (Pather.Path p)
      (.nil : Sink α) hr
    exact ⟨req, h1, h2, h3, h4⟩
  · obtain ⟨h1, h2, h3⟩ := call_nil_sink (σ := α) env c "DELETE" (Pather.Path p) (.nil : Data α)
    refine ⟨h1, ?_, h2, h3⟩
    simp only [Outcome.resource, Client.Destroy, h1]

/-- C7, the code at a failing input: `Update` on the `App` of `example_test.go`,
named `myapp` with the maintenance flag set, sends one PATCH to
`https://api.heroku.com/apps/myapp` whose body is the document `null`, whereas
the JSON serialization of that `App` is the object with its name and
maintenance flag; and `Update` does the same whatever the maintenance flag of
the resource is. The resource is the payload argument of `call`, but
`NewRequest` marshals its nil `body` variable instead of it. -/
theorem update_sends_null_body :
    (Client.Update (fixedEnv App ⟨200, "200 OK", "null"⟩) exampleClient
        ⟨"", "myapp", true⟩).sent.map (fun req => (req.Method, req.URL, req.Body))
      = [("PATCH", "https://api.heroku.com/apps/myapp", some "null")]
    ∧ jsonMarshalApp (.value ⟨"", "myapp", true⟩)
      = .ok "\x7b\"name\":\"myapp\",\"maintenance\":true\x7d"
    ∧ (∀ (env : Env App App) (c : Client) (id name : String) (m m' : Bool),
        Client.Update env c ⟨id, name, m⟩ = Client.Update env c ⟨id, name, m'⟩) := by
  refine ⟨by decide, by decide, ?_⟩
  intro env c id name m m'
  rfl

/-- C8: for every string `path`, `dir(path)` returns an error if and only if
`path` contains no `/`, and that error is `invalid path: ` followed by the
path; `Create` returns that error exactly when `p.Path()` has no `/`, and then
its outcome consults no collaborator: nothing is sent, the resource is
untouched and the outcome is the same in every environment. -/
theorem dir_invalid_path_iff {α : Type} [Pather α] (env : Env α α) (c : Client) (p : α)
    (path : String) :
    ((∃ err, dir path = .error err) ↔ '/' ∉ path.data)
      ∧ (∀ err, dir path = .error err →
          err = .invalidPath path ∧ err.Error = "invalid path: " ++ path)
      ∧ ((Client.Create env c p).err = some (.invalidPath (Pather.Path p))
          ↔ '/' ∉ (Pather.Path p).data)
      ∧ ('/' ∉ (Pather.Path p).data →
          ∀ (env' : Env α α) (c' : Client),
            Client.Create env' c' p = ⟨some (.invalidPath (Pather.Path p)), .value p, []⟩) := by
  refine ⟨?_, ?_, ?_, ?_⟩
  · constructor
    · rintro ⟨err, herr⟩
      exact (dir_error_kind path err herr).2
    · intro h
      exact ⟨_, (dir_error_iff path).mpr h⟩
  · intro err herr
    obtain ⟨h1, -⟩ := dir_error_kind path err herr
    subst h1
    exact ⟨rfl, rfl⟩
  · constructor
    · intro herr
      intro hin
      obtain ⟨d, s, hd, -, -⟩ := dir_ok_split (Pather.Path p) hin
      simp only [Client.Create, hd] at herr
      exact call_err_ne_invalidPath env c "POST" d _ _ _ herr
    · intro h
      simp [Client.Create, (dir_error_iff (Pather.Path p)).mpr h]
  · intro h env' c'
    simp [Client.Create, (dir_error_iff (Pather.Path p)).mpr h]

theorem dir_invalid_path_iff_witness :
    Client.Create (constEnv Bare (fun _ => .ok "null") ⟨201, "201 Created", "null"⟩)
        exampleClient (⟨"apps"⟩ : Bare)
      = ⟨some (.invalidPath "apps"), .value ⟨"apps"⟩, []⟩ :=
  (dir_invalid_path_iff (constEnv Bare (fun _ => .ok "null") ⟨201, "201 Created", "null"⟩)
    exampleClient (⟨"apps"⟩ : Bare) "apps").2.2.2 (by decide) _ _

/-- C9: `New(url)` returns an error, and no client, if and only if `url` is
non-empty and either `url.Parse` fails on it or the parsed scheme is not
`https`; `New("")` returns a client with Host `api.heroku.com` and an empty
Token; for a non-empty url parsing to scheme `https`, it returns a client
whose Host is the url's host and whose Token is the url's password (empty
when the url has no user information). -/
theorem New_error_iff (Parse : String → Except String URL) (url : String) :
    ((∃ err, New Parse url = .error err)
        ↔ url ≠ "" ∧ ((∃ e, Parse url = .error e) ∨ ∃ u, Parse url = .ok u ∧ u.Scheme ≠ "https"))
      ∧ (∃ cl, New Parse "" = .ok cl ∧ cl.Host = DefaultHost ∧ DefaultHost = "api.heroku.com"
          ∧ cl.Token = "")
      ∧ (∀ u, url ≠ "" → Parse url = .ok u → u.Scheme = "https" →
          ∃ cl, New Parse url = .ok cl ∧ cl.Host = u.Host
            ∧ (∀ ui, u.User = some ui → cl.Token = ui.password)
            ∧ (u.User = none → cl.Token = "")) := by
  refine ⟨?_, ?_, ?_⟩
  · by_cases hurl : url = ""
    · subst hurl
      simp [New]
    · cases hp : Parse url with
      | error e => simp [New, hurl, hp]
      | ok u =>
        by_cases hs : u.Scheme = "https"
        · simp [New, hurl, hp, hs]
        · simp [New, hurl, hp, hs]
  · exact ⟨{ Host := DefaultHost, Token := "", Client := none }, by simp [New], rfl, rfl, rfl⟩
  · intro u hurl hp hs
    refine ⟨{ Host := u.Host
              Token := match u.User with
                | some ui => ui.Password.1
                | none => ""
              Client := none }, by simp [New, hurl, hp, hs], rfl, ?_, ?_⟩
    · intro ui hui
      simp [hui, Userinfo.Password]
    · intro hnone
      simp [hnone]

theorem New_error_iff_witness :
    ∃ cl, New parseURL "https://:secret@api.example.com" = .ok cl
      ∧ cl.Host = "api.example.com" ∧ cl.Token = "secret" := by
  obtain ⟨cl, h1, h2, h3, -⟩ := (New_error_iff parseURL "https://:secret@api.example.com").2.2
    ⟨"https", some ⟨"", "secret", true⟩, "api.example.com"⟩ (by decide) (by decide) rfl
  exact ⟨cl, h1, h2, h3 ⟨"", "secret", true⟩ rfl⟩

/-- C10: for every path that contains `/`, `dir(path)` returns a string `d`
with `path = d + "/" + s` where the stripped segment `s` contains no `/`.
`Create` runs `call` on `d`, and `List` on the `d` cut from the path of the
element type's zero value; `Info`, `Update` and `Destroy` run on `path`
itself. Each of the five sends requests only to its own url, and sends
exactly one, with its own method, when the libraries accept. -/
theorem dir_strips_last_segment {α : Type} [Pather α] (env : Env α α) (c : Client) (p : α)
    (h : '/' ∈ (Pather.Path p).data) :
    ∃ d s : String, dir (Pather.Path p) = .ok d ∧ Pather.Path p = d ++ "/" ++ s
      ∧ '/' ∉ s.data
      ∧ Client.Create env c p = call env c "POST" d (.value p) (.value p)
      ∧ (∀ req ∈ (Client.Create env c p).sent, req.URL = "https://" ++ c.Host ++ d)
      ∧ (∀ req ∈ (Client.Info env c p).sent, req.URL = "https://" ++ c.Host ++ Pather.Path p)
      ∧ (∀ req ∈ (Client.Update env c p).sent, req.URL = "https://" ++ c.Host ++ Pather.Path p)
      ∧ (∀ req ∈ (Client.Destroy env c p).sent, req.URL = "https://" ++ c.Host ++ Pather.Path p)
      ∧ (∀ (δ : Type) (envL : Env δ Dyn) (handle : Option Dyn) (lp : AppPtr) (ipath dl : String),
          listPather handle = .ok lp → lp.Path = .ok ipath → dir ipath = .ok dl →
          Client.List envL c handle = call envL c "GET" dl .nil (Sink.ofAny handle)
            ∧ (∀ req ∈ (Client.List envL c handle).sent, req.URL = "https://" ++ c.Host ++ dl)
            ∧ (envL.Reject "GET" ("https://" ++ c.Host ++ dl) = none →
                ∃ req, (Client.List envL c handle).sent = [req] ∧ req.Method = "GET"
                  ∧ req.URL = "https://" ++ c.Host ++ dl))
      ∧ (∀ j, env.Marshal .nil = .ok j →
          env.Reject "POST" ("https://" ++ c.Host ++ d) = none →
          ∃ req, (Client.Create env c p).sent = [req] ∧ req.Method = "POST"
            ∧ req.URL = "https://" ++ c.Host ++ d)
      ∧ (env.Reject "GET" ("https://" ++ c.Host ++ Pather.Path p) = none →
          ∃ req, (Client.Info env c p).sent = [req] ∧ req.Method = "GET"
            ∧ req.URL = "https://" ++ c.Host ++ Pather.Path p)
      ∧ (∀ j, env.Marshal .nil = .ok j →
          env.Reject "PATCH" ("https://" ++ c.Host ++ Pather.Path p) = none →
          ∃ req, (Client.Update env c p).sent = [req] ∧ req.Method = "PATCH"
            ∧ req.URL = "https://" ++ c.Host ++ Pather.Path p)
      ∧ (env.Reject "DELETE" ("https://" ++ c.Host ++ Pather.Path p) = none →
          ∃ req, (Client.Destroy env c p).sent = [req] ∧ req.Method = "DELETE"
            ∧ req.URL = "https://" ++ c.Host ++ Pather.Path p) := by
  obtain ⟨d, s, hd, hsplit, hs⟩ := dir_ok_split (Pather.Path p) h
  have hcreate : Client.Create env c p = call env c "POST" d (.value p) (.value p) := by
    simp [Client.Create, hd]
  refine ⟨d, s, hd, hsplit, hs, hcreate, ?_, ?_, ?_, ?_, ?_, ?_, ?_, ?_, ?_⟩
  · intro req hreq
    rw [hcreate] at hreq
    exact (call_sent_method_url env c "POST" d _ _ req hreq).2
  · intro req hreq
    exact (call_sent_method_url env c "GET" (Pather.Path p) _ _ req hreq).2
  · intro req hreq
    exact (call_sent_method_url env c "PATCH" (Pather.Path p) _ _ req hreq).2
  · intro req hreq
    exact (call_sent_method_url env c "DELETE" (Pather.Path p) _ _ req hreq).2
  · intro δ envL handle lp ipath dl hl hp hdl
    have hlist : Client.List envL c handle = call envL c "GET" dl .nil (Sink.ofAny handle) := by
      simp [Client.List, hl, hp, hdl]
    refine ⟨hlist, ?_, ?_⟩
    · intro req hreq
      rw [hlist] at hreq
      exact (call_sent_method_url envL c "GET" dl _ _ req hreq).2
    · intro hr
      rw [hlist]
      obtain ⟨req, h1, h2, h3, -⟩ := call_nil_sends envL c "GET" dl (Sink.ofAny handle) hr
      exact ⟨req, h1, h2, h3⟩
  · intro j hm hr
    rw [hcreate]
    exact call_value_sends env c "POST" d p (.value p) j hm hr
  · intro hr
    obtain ⟨req, h1, h2, h3, -⟩ := call_nil_sends env c "GET" (Pather.Path p) (.value p) hr
    exact ⟨req, h1, h2, h3⟩
  · intro j hm hr
    exact call_value_sends env c "PATCH" (Pather.Path p) p .nil j hm hr
  · intro hr
    obtain ⟨req, h1, h2, h3, -⟩ := call_nil_sends env c "DELETE" (Pather.Path p)
      (.nil : Sink α) hr
    exact ⟨req, h1, h2, h3⟩

theorem dir_strips_last_segment_witness :
    dir (Pather.Path (⟨"", "myapp", false⟩ : App)) = .ok "/apps"
      ∧ (∃ req, (Client.Create (fixedEnv App ⟨200, "200 OK", "null"⟩) exampleClient
            (⟨"", "myapp", false⟩ : App)).sent = [req] ∧ req.Method = "POST"
          ∧ req.URL = "https://" ++ exampleClient.Host ++ "/apps")
      ∧ (∃ req, (Client.List (fixedEnv Dyn ⟨200, "200 OK", "null"⟩) exampleClient
            (some ⟨AppsHandle, some []⟩)).sent = [req] ∧ req.Method = "GET"
          ∧ req.URL = "https://" ++ exampleClient.Host ++ "/apps")
      ∧ (∃ req, (Client.Info (fixedEnv App ⟨200, "200 OK", "null"⟩) exampleClient
            (⟨"", "myapp", false⟩ : App)).sent = [req] ∧ req.Method = "GET"
          ∧ req.URL = "https://" ++ exampleClient.Host ++ "/apps/myapp")
      ∧ (∃ req, (Client.Update (fixedEnv App ⟨200, "200 OK", "null"⟩) exampleClient
            (⟨"", "myapp", false⟩ : App)).sent = [req] ∧ req.Method = "PATCH"
          ∧ req.URL = "https://" ++ exampleClient.Host ++ "/apps/myapp")
      ∧ (∃ req, (Client.Destroy (fixedEnv App ⟨200, "200 OK", "null"⟩) exampleClient
            (⟨"", "myapp", false⟩ : App)).sent = [req] ∧ req.Method = "DELETE"
          ∧ req.URL = "https://" ++ exampleClient.Host ++ "/apps/myapp") := by
  obtain ⟨d, s, h1, -, -, -, -, -, -, -, hlist, hc, hi, hu, hd⟩ :=
    dir_strips_last_segment (fixedEnv App ⟨200, "200 OK", "null"⟩) exampleClient
      (⟨"", "myapp", false⟩ : App) (by decide)
  have hdir : dir (Pather.Path (⟨"", "myapp", false⟩ : App)) = .ok "/apps" := by decide
  have hd' : d = "/apps" := by
    rw [hdir] at h1
    exact (Except.ok.inj h1).symm
  subst hd'
  obtain ⟨-, -, hl⟩ := hlist App (fixedEnv Dyn ⟨200, "200 OK", "null"⟩)
    (some ⟨AppsHandle, some []⟩) (some ⟨"", "", false⟩) "/apps/" "/apps"
    (by decide) (by decide) (by decide)
  exact ⟨hdir, hc "null" rfl rfl, hl rfl, hi rfl, hu "null" rfl rfl, hd rfl⟩

end Heroku
